import Mathlib

/-!
Verification of the quant-factorizer workflow engine.

This file gives a shallow embedding of the workflow orchestration code of the
repository (`quant_factorizer/workflow/run.py`, `workflow/config.py`,
`factor/indicators.py`, `factor/crosses.py`, `evaluation/evaluators.py`,
`cli/cli_tool.py`) and proves properties of it.

Modelling conventions:
- pandas DataFrames are modelled as an explicit (time) index together with an
  ordered list of named columns (`DF`); the raw, not-yet-reindexed output of a
  registered compute function is `RawDF`.
- Timestamps are modelled as non-negative milliseconds since the epoch (`Nat`);
  formatting an `Arrow` value with the second-resolution pattern used in
  `run.py` truncates the sub-second part, modelled by `truncSec`.
- Python exceptions are modelled with `Except RunErr`; an operation that would
  raise maps to `.error`.
- The thread pool of `concurrent.futures.ThreadPoolExecutor` is modelled by an
  explicit completion order (the order in which the pool finishes the submitted
  tasks); collecting iterates the futures list in submission order and reads
  each future's stored result (`runPool`).  The `max_workers` value influences
  only which completion orders are possible, so it does not appear in `runPool`.
-/

namespace QuantFactorizer

/-- Instrument symbols (the `symbol` index level of the OHLCV table). -/
abbrev Sym := String

/-- Timestamps: non-negative milliseconds since the epoch. -/
abbrev Time := Nat

/-- Numeric cell values.  The concrete indicator formulas are opaque to the
workflow engine, so the exact numeric domain is irrelevant; `Int` keeps
everything decidable. -/
abbrev V := Int

/-- Keyword arguments of a step (`args` mapping in the configuration).  The
only key the engine itself inspects is `"periods"` (defaulted by the
indicator wrapper), whose value is a list of integers. -/
abbrev Args := List (String × List Int)

/-- One row of the loaded OHLCV table after
`df.set_index(['symbol', 'time'])` in `run_workflow` (run.py line 118). -/
structure ORow where
  sym : Sym
  time : Time
  openv : V
  high : V
  low : V
  close : V
  volume : V
deriving DecidableEq, Repr

/-- The raw tabular output of a registered compute function, before the
decorator wrapper re-indexes it: an ordered list of named columns.  A real
pandas DataFrame is rectangular (all columns of equal length). -/
structure RawDF where
  cols : List (String × List V)
deriving DecidableEq, Repr

/-- An indexed frame: a time index plus ordered named columns.  Models a
pandas DataFrame whose index is the `time` level. -/
structure DF where
  index : List Time
  cols : List (String × List V)
deriving DecidableEq, Repr

/-- Python exceptions that the embedded code can raise. -/
inductive RunErr where
  | keyError : String → RunErr
  | attributeError : String → RunErr
  | typeError : String → RunErr
  | noObjectsToConcatenate : RunErr
  | valueLengthMismatch : RunErr
  | misalignedIndexes : RunErr
  | invalidSchedule : RunErr
deriving DecidableEq, Repr

/-- Whether an `Except` value is a success. -/
def exceptOk {ε α : Type} : Except ε α → Bool
  | .ok _ => true
  | .error _ => false

/-- `result['time'] = args[0].index.copy(); result.set_index('time', inplace=True)`
from the decorator wrappers in indicators.py (lines 52-53) and crosses.py
(lines 56-57): attach the stage input's index to the raw result.  pandas
accepts the column assignment when the raw result is empty (creating the rows)
or when its row count equals the index length, and raises a ValueError on a
length mismatch. -/
def attachTimeIndex (idx : List Time) (r : RawDF) : Except RunErr DF :=
  if r.cols.isEmpty then .ok ⟨idx, []⟩
  else if r.cols.all (fun c => c.2.length == idx.length) then .ok ⟨idx, r.cols⟩
  else .error .valueLengthMismatch

/-- `pd.concat(dfs, axis=1)`: concatenate frames column-wise.  pandas raises
ValueError on an empty list.  On a non-empty list it aligns the frames on the
union of their indexes; every call in run.py concatenates frames carrying the
identical index (each wrapper copies the stage input's index), so the aligned
case is the identity on the index and the non-identical case is marked with an
explicit error value that no run below reaches. -/
def concatCols (dfs : List DF) : Except RunErr DF :=
  match dfs with
  | [] => .error .noObjectsToConcatenate
  | d :: rest =>
    if rest.all (fun x => x.index == d.index) then
      .ok ⟨d.index, (d :: rest).foldr (fun x acc => x.cols ++ acc) []⟩
    else .error .misalignedIndexes

/-- `IndicatorConf` from config.py: name plus keyword arguments. -/
structure IndicatorConf where
  name : String
  args : Args := []
deriving DecidableEq, Repr

/-- `CrossConf` from config.py: name, declared orders (default `[2]`), args. -/
structure CrossConf where
  name : String
  orders : List Int := [2]
  args : Args := []
deriving DecidableEq, Repr

/-- `FactorConf` from config.py lines 18-20.  It declares exactly two fields:
`indicators` and `crosses`.  There is no `evaluators` field. -/
structure FactorConf where
  indicators : List IndicatorConf := []
  crosses : Option (List CrossConf) := none
deriving DecidableEq, Repr

/-- A loader or writer reference (`LoaderConf`/`WriterConf` from config.py). -/
structure UnitRef where
  name : String
  args : Args := []
deriving DecidableEq, Repr

/-- `DataConf` from config.py. -/
structure DataConf where
  loader : UnitRef
  writer : UnitRef
deriving DecidableEq, Repr

/-- `WorkflowConf` from config.py. -/
structure WorkflowConf where
  name : String
  data : DataConf
  factor : FactorConf
deriving DecidableEq, Repr

/-- run.py line 215 evaluates `conf.factor.evaluators`.  `FactorConf`
(config.py lines 18-20) declares no `evaluators` field, so this attribute
access raises AttributeError on the pydantic model.  The success type is the
list of step declarations run.py would iterate (objects with `.name` and
`.args`, like `IndicatorConf`); it is never produced. -/
def factorEvaluatorsAttr (_ : FactorConf) : Except RunErr (List IndicatorConf) :=
  .error (.attributeError "evaluators")

/-- A registered technical indicator (indicators.py `TechnicalIndicator`).
The Python registry stores the already-wrapped function; here the raw function
is stored and the wrapper (`indicatorWrapper`) is applied at the single call
site, which is equivalent because every stored function is the wrapper applied
to the raw function. -/
structure TechnicalIndicator where
  name : String
  definition : String
  func : DF → Args → RawDF

/-- A registered cross (crosses.py `Cross`); raw function, see
`TechnicalIndicator` for the wrapping convention. -/
structure CrossUnit where
  name : String
  definition : String
  func : DF → Int → Args → RawDF

/-- A registered evaluator (evaluators.py `Evaluator`).  Evaluator
registration stores the plain function (no wrapper manipulates its arguments
or result).  run.py calls it with one positional frame argument plus the
declared keyword arguments. -/
structure EvaluatorUnit where
  name : String
  definition : String
  func : DF → Args → DF

/-- `technical_indicator_registry`: name-keyed mapping, modelled as an
association list (registration inserts; lookup is by key). -/
abbrev IndRegistry := List (String × TechnicalIndicator)

/-- `cross_registry`. -/
abbrev CrossRegistry := List (String × CrossUnit)

/-- `evaluator_registry`. -/
abbrev EvalRegistry := List (String × EvaluatorUnit)

/-- `technical_indicator_registry[ti.name]` (run.py line 29): a plain dict
lookup that raises KeyError when the name is absent. -/
def resolveInd (reg : IndRegistry) (ti : IndicatorConf) : Except RunErr TechnicalIndicator :=
  match reg.lookup ti.name with
  | some u => .ok u
  | none => .error (.keyError ti.name)

/-- `cross_registry[cr.name]` (run.py line 51). -/
def resolveCross (reg : CrossRegistry) (cr : CrossConf) : Except RunErr CrossUnit :=
  match reg.lookup cr.name with
  | some u => .ok u
  | none => .error (.keyError cr.name)

/-- `evaluator_registry[e.name]` (run.py line 75). -/
def resolveEval (reg : EvalRegistry) (e : IndicatorConf) : Except RunErr EvaluatorUnit :=
  match reg.lookup e.name with
  | some u => .ok u
  | none => .error (.keyError e.name)

/-- The `periods` defaulting of the indicator wrapper (indicators.py lines
44-48): when the keyword arguments carry no `periods` key, set it to `[2, 5]`. -/
def defaultPeriods (kw : Args) : Args :=
  if (kw.lookup "periods").isNone then kw ++ [("periods", [2, 5])] else kw

/-- The indicator decorator wrapper (indicators.py lines 43-55): default
`periods`, call the raw function, then attach the input's index to the
result. -/
def indicatorWrapper (raw : DF → Args → RawDF) (input : DF) (kw : Args) : Except RunErr DF :=
  attachTimeIndex input.index (raw input (defaultPeriods kw))

/-- The order clamp of the cross decorator wrapper (crosses.py lines 50-51):
`order = max(order, 2); order = min(order, len(cols))` where `cols` are the
columns of the stage input. -/
def crossEffectiveOrder (o : Int) (k : Nat) : Int :=
  min (max o 2) (k : Int)

/-- The effective-order formula as the specification words it: for input with
`k` columns and declared order `o`, effective order `max(2, min(o, k))`.
Stated from the spec, to be compared with `crossEffectiveOrder` taken from the
source. -/
def specOrderFormula (o : Int) (k : Nat) : Int :=
  max 2 (min o (k : Int))

/-- The cross decorator wrapper (crosses.py lines 46-59): clamp the order,
call the raw function with the clamped order, then attach the input's index. -/
def crossWrapper (raw : DF → Int → Args → RawDF) (input : DF) (o : Int) (kw : Args) :
    Except RunErr DF :=
  attachTimeIndex input.index (raw input (crossEffectiveOrder o input.cols.length) kw)

/-- The completion log of a pool run: the pairs (task index, task result) in
the order the pool finished the tasks.  Task results are pure values of the
embedding, so a task's entry carries the same result no matter when it
finishes. -/
def completionLog {α : Type} (tasks : List α) (completion : List Nat) : List (Nat × α) :=
  completion.filterMap (fun i => (tasks.get? i).map (fun r => (i, r)))

/-- Read the futures back in submission order: for each submitted index, take
the result recorded for it in the completion log. -/
def lookupAll {α : Type} (log : List (Nat × α)) : List Nat → Option (List α)
  | [] => some []
  | i :: is =>
    match log.lookup i, lookupAll log is with
    | some r, some rs => some (r :: rs)
    | _, _ => none

/-- A pool run: the pool finishes the submitted tasks in the order
`completion`; the collection loop (`for future in futures: dfs.append(future.result())`,
run.py lines 36-37) then reads the futures in submission order.  `none` marks
a physically impossible run in which some submitted task never completes. -/
def runPool {α : Type} (tasks : List α) (completion : List Nat) : Option (List α) :=
  lookupAll (completionLog tasks completion) (List.range tasks.length)

/-- Sequence the collected results: `future.result()` re-raises the task's
exception, so the first failing task in submission order aborts collection. -/
def seqE : List (Except RunErr DF) → Except RunErr (List DF)
  | [] => .ok []
  | .error e :: _ => .error e
  | .ok d :: ts =>
    match seqE ts with
    | .ok ds => .ok (d :: ds)
    | .error e => .error e

/-- The task list of `_calculate` (run.py lines 27-34): for each declared
indicator step, resolve the registry entry and submit the wrapped function
applied to the symbol slice and the step's arguments.  A failing lookup raises
during the list comprehension, before any collection. -/
def calcTaskResults (reg : IndRegistry) (dfsym : DF) :
    List IndicatorConf → Except RunErr (List (Except RunErr DF))
  | [] => .ok []
  | ti :: rest =>
    match resolveInd reg ti with
    | .error e => .error e
    | .ok u =>
      match calcTaskResults reg dfsym rest with
      | .error e => .error e
      | .ok ts => .ok (indicatorWrapper u.func dfsym ti.args :: ts)

/-- The submitted task result for one indicator step, as a single value:
resolution failure or the wrapper applied to the slice. -/
def indTask (reg : IndRegistry) (dfsym : DF) (ti : IndicatorConf) : Except RunErr DF :=
  match resolveInd reg ti with
  | .ok u => indicatorWrapper u.func dfsym ti.args
  | .error e => .error e

/-- The flattened cross work-item list of `_cross` (run.py lines 49-58): one
item per declared cross step and declared order, ordered by step declaration
and then by the declared order values within each step. -/
def crossPairs (crs : List CrossConf) : List (CrossConf × Int) :=
  crs.foldr (fun cr acc => cr.orders.map (fun o => (cr, o)) ++ acc) []

/-- The cross work items declared by a configuration (empty when the optional
cross list is absent). -/
def confCrossPairs (conf : WorkflowConf) : List (CrossConf × Int) :=
  crossPairs (conf.factor.crosses.getD [])

/-- The task list of `_cross` (run.py lines 49-58). -/
def crossTaskResults (regX : CrossRegistry) (rdf : DF) :
    List (CrossConf × Int) → Except RunErr (List (Except RunErr DF))
  | [] => .ok []
  | p :: rest =>
    match resolveCross regX p.1 with
    | .error e => .error e
    | .ok u =>
      match crossTaskResults regX rdf rest with
      | .error e => .error e
      | .ok ts => .ok (crossWrapper u.func rdf p.2 p.1.args :: ts)

/-- The submitted task result for one cross work item. -/
def crossTask (regX : CrossRegistry) (rdf : DF) (p : CrossConf × Int) : Except RunErr DF :=
  match resolveCross regX p.1 with
  | .ok u => crossWrapper u.func rdf p.2 p.1.args
  | .error e => .error e

/-- `_calculate` (run.py lines 20-39) for one symbol slice: build the task
list, run the pool (with the given completion order), collect the results in
submission order and concatenate them column-wise. -/
def pyCalculate (reg : IndRegistry) (dfsym : DF) (steps : List IndicatorConf)
    (completion : List Nat) : Except RunErr DF :=
  match calcTaskResults reg dfsym steps with
  | .error e => .error e
  | .ok ts =>
    match runPool ts completion with
    | none => .error .invalidSchedule
    | some rs =>
      match seqE rs with
      | .error e => .error e
      | .ok dfs => concatCols dfs

/-- `_cross` (run.py lines 42-63) over the indicator-stage result. -/
def pyCross (regX : CrossRegistry) (rdf : DF) (crs : List CrossConf)
    (completion : List Nat) : Except RunErr DF :=
  match crossTaskResults regX rdf (crossPairs crs) with
  | .error e => .error e
  | .ok ts =>
    match runPool ts completion with
    | none => .error .invalidSchedule
    | some rs =>
      match seqE rs with
      | .error e => .error e
      | .ok dfs => concatCols dfs

/-- Pool-free reference semantics of `_calculate`: every valid completion
order yields this value (proved below). -/
def indStage (reg : IndRegistry) (dfsym : DF) (steps : List IndicatorConf) :
    Except RunErr DF :=
  match calcTaskResults reg dfsym steps with
  | .error e => .error e
  | .ok ts =>
    match seqE ts with
    | .error e => .error e
    | .ok dfs => concatCols dfs

/-- Pool-free reference semantics of `_cross`. -/
def crossStage (regX : CrossRegistry) (rdf : DF) (crs : List CrossConf) :
    Except RunErr DF :=
  match crossTaskResults regX rdf (crossPairs crs) with
  | .error e => .error e
  | .ok ts =>
    match seqE ts with
    | .error e => .error e
    | .ok dfs => concatCols dfs

/-- Scan keeping the first occurrence of each symbol, given the symbols
already seen. -/
def uniqueFirstAux : List Sym → List Sym → List Sym
  | [], _ => []
  | s :: rest, seen =>
    if s ∈ seen then uniqueFirstAux rest seen
    else s :: uniqueFirstAux rest (s :: seen)

/-- The distinct symbols of the table in order of first appearance:
`df.index.get_level_values('symbol').unique()` (run.py line 184). -/
def uniqueFirst (l : List Sym) : List Sym :=
  uniqueFirstAux l []

/-- `df.loc[symbol]` on the (symbol, time)-indexed OHLCV table (run.py line
30): the rows of one symbol, as a time-indexed frame whose columns are the
OHLCV columns in loader order. -/
def symbolSlice (rows : List ORow) (s : Sym) : DF :=
  let rs := rows.filter (fun r => r.sym == s)
  ⟨rs.map (fun r => r.time),
   [("open", rs.map (fun r => r.openv)),
    ("high", rs.map (fun r => r.high)),
    ("low", rs.map (fun r => r.low)),
    ("close", rs.map (fun r => r.close)),
    ("volume", rs.map (fun r => r.volume))]⟩

/-- Truncation of a timestamp to whole seconds:
`pd.Timestamp(begin.format('YYYY-MM-DD HH:mm:ss'))` (run.py lines 147 and
152) formats with second resolution, discarding the fractional second. -/
def truncSec (t : Time) : Time :=
  t / 1000 * 1000

/-- The time-range filter of `run_workflow` (run.py lines 144-153): when a
`begin` bound is given keep rows with `truncSec begin <= time`, then, when an
`end` bound is given, keep rows with `time < truncSec end`.  Boolean-mask
filtering preserves the row order. -/
def filterTime (begin fin : Option Time) (rows : List ORow) : List ORow :=
  let r1 := match begin with
    | none => rows
    | some b => rows.filter (fun r => truncSec b ≤ r.time)
  match fin with
  | none => r1
  | some e => r1.filter (fun r => r.time < truncSec e)

/-- A schedule: for every symbol, the completion order of each stage's pool.
`max_workers` (the `concurrency` argument) only influences which completion
orders can physically occur; the schedule abstracts all of them. -/
structure Sched where
  calcOrder : Sym → List Nat
  crossOrder : Sym → List Nat
  evalOrder : Sym → List Nat

/-- One symbol's calculation pipeline (run.py lines 185-190): run
`_calculate`, then, when the configuration declares a non-empty cross list
(`if conf.factor.crosses:` is false for `None` and for `[]`), run `_cross`
over the indicator result and concatenate the two column-wise. -/
def calcSymbol (reg : IndRegistry) (regX : CrossRegistry) (conf : WorkflowConf)
    (dfsym : DF) (sched : Sched) (s : Sym) : Except RunErr DF :=
  match pyCalculate reg dfsym conf.factor.indicators (sched.calcOrder s) with
  | .error e => .error e
  | .ok rdf =>
    match conf.factor.crosses with
    | none => .ok rdf
    | some crs =>
      if crs.isEmpty then .ok rdf
      else
        match pyCross regX rdf crs (sched.crossOrder s) with
        | .error e => .error e
        | .ok cdf => concatCols [rdf, cdf]

/-- Pool-free reference semantics of `calcSymbol`. -/
def calcSymbolSeq (reg : IndRegistry) (regX : CrossRegistry) (conf : WorkflowConf)
    (dfsym : DF) : Except RunErr DF :=
  match indStage reg dfsym conf.factor.indicators with
  | .error e => .error e
  | .ok rdf =>
    match conf.factor.crosses with
    | none => .ok rdf
    | some crs =>
      if crs.isEmpty then .ok rdf
      else
        match crossStage regX rdf crs with
        | .error e => .error e
        | .ok cdf => concatCols [rdf, cdf]

/-- The per-symbol calculation frames in processing order, keyed by symbol.
Models the (symbol, time)-indexed `calculation_df` of run.py line 197: each
per-symbol frame gets a `symbol` column moved into the index (run.py lines
191-193) and the frames are stacked row-wise; the symbol key of each stacked
block is the first component of the pair. -/
abbrev CalcTable := List (Sym × DF)

/-- The symbol-keyed `evaluation_df` blocks (run.py lines 236-240). -/
abbrev EvalTable := List (Sym × DF)

/-- The symbol loop of run.py lines 184-196: process the distinct symbols
sequentially; an exception in one symbol's pipeline propagates and later
symbols are not processed. -/
def calcTableGo (reg : IndRegistry) (regX : CrossRegistry) (conf : WorkflowConf)
    (frows : List ORow) (sched : Sched) : List Sym → Except RunErr CalcTable
  | [] => .ok []
  | s :: ss =>
    match calcSymbol reg regX conf (symbolSlice frows s) sched s with
    | .error e => .error e
    | .ok f =>
      match calcTableGo reg regX conf frows sched ss with
      | .error e => .error e
      | .ok t => .ok ((s, f) :: t)

/-- The calculation stage over the filtered table (run.py lines 177-197). -/
def calcTable (reg : IndRegistry) (regX : CrossRegistry) (conf : WorkflowConf)
    (frows : List ORow) (sched : Sched) : Except RunErr CalcTable :=
  calcTableGo reg regX conf frows sched (uniqueFirst (frows.map (fun r => r.sym)))

/-- Pool-free symbol loop. -/
def calcTableGoSeq (reg : IndRegistry) (regX : CrossRegistry) (conf : WorkflowConf)
    (frows : List ORow) : List Sym → Except RunErr CalcTable
  | [] => .ok []
  | s :: ss =>
    match calcSymbolSeq reg regX conf (symbolSlice frows s) with
    | .error e => .error e
    | .ok f =>
      match calcTableGoSeq reg regX conf frows ss with
      | .error e => .error e
      | .ok t => .ok ((s, f) :: t)

/-- `calculation_df.loc[symbol]` (run.py line 76 via `_evaluate`): the block
of one symbol.  The symbols iterated come from the table itself, so the
lookup succeeds there. -/
def lookupSymbolFrame (ct : CalcTable) (s : Sym) : Option DF :=
  (ct.find? (fun p => p.1 == s)).map (fun p => p.2)

/-- `reset_index(drop=True)` (run.py line 76): replace the index by the
0-based range index. -/
def resetIndex (f : DF) : DF :=
  ⟨List.range f.index.length, f.cols⟩

/-- The task list of `_evaluate` (run.py lines 73-80): resolve each evaluator
and apply its (unwrapped) function to the symbol's calculation block.  The
registered function itself is opaque and total here, so each submitted task
carries a plain frame. -/
def evalTaskResults (regE : EvalRegistry) (dfe : DF) :
    List IndicatorConf → Except RunErr (List DF)
  | [] => .ok []
  | e :: rest =>
    match resolveEval regE e with
    | .error er => .error er
    | .ok u =>
      match evalTaskResults regE dfe rest with
      | .error er => .error er
      | .ok ds => .ok (u.func dfe e.args :: ds)

/-- `_evaluate` (run.py lines 66-85) for one symbol of the calculation
table. -/
def pyEvaluate (regE : EvalRegistry) (ct : CalcTable) (s : Sym)
    (ecfgs : List IndicatorConf) (completion : List Nat) : Except RunErr DF :=
  match lookupSymbolFrame ct s with
  | none => .error (.keyError s)
  | some f =>
    match evalTaskResults regE (resetIndex f) ecfgs with
    | .error e => .error e
    | .ok ts =>
      match runPool ts completion with
      | none => .error .invalidSchedule
      | some rs => concatCols rs

/-- The evaluator loop of run.py lines 227-239 over the distinct symbols of
the calculation table. -/
def evalTableGo (regE : EvalRegistry) (ct : CalcTable) (ecfgs : List IndicatorConf)
    (sched : Sched) : List Sym → Except RunErr EvalTable
  | [] => .ok []
  | s :: ss =>
    match pyEvaluate regE ct s ecfgs (sched.evalOrder s) with
    | .error e => .error e
    | .ok f =>
      match evalTableGo regE ct ecfgs sched ss with
      | .error e => .error e
      | .ok t => .ok ((s, f) :: t)

/-- `run_workflow` (run.py lines 88-268), from the loaded OHLCV rows to the
two tables handed to the writer (run.py line 264).  Loading and writing are
external collaborators: the loaded table is the `rows` argument and the
success value is the `(calculation_df, evaluation_df)` pair passed to
`writer.write`.  `concurrency` is coerced to 1 when non-positive (line
107-108) and otherwise only sizes the worker pools, whose behaviour the
schedule abstracts, so the result does not depend on it. -/
def run_workflow (regI : IndRegistry) (regX : CrossRegistry) (regE : EvalRegistry)
    (conf : WorkflowConf) (rows : List ORow) (begin fin : Option Time)
    (concurrency : Int) (sched : Sched) : Except RunErr (CalcTable × EvalTable) :=
  let _maxWorkers : Int := if concurrency ≤ 0 then 1 else concurrency
  let frows := filterTime begin fin rows
  match calcTable regI regX conf frows sched with
  | .error e => .error e
  | .ok ct =>
    match factorEvaluatorsAttr conf.factor with
    | .error e => .error e
    | .ok ecfgs =>
      if ecfgs.isEmpty then .ok (ct, [])
      else
        match evalTableGo regE ct ecfgs sched (ct.map (fun p => p.1)) with
        | .error e => .error e
        | .ok et => .ok (ct, et)

/-- The value the Python `run_workflow` hands back to its caller: the
function body contains no `return` statement, so a successful call returns
`None`; a lazy generator of (symbol, frame) pairs would be the other shape a
caller could receive. -/
inductive PyValue where
  | none : PyValue
  | pairs : List (Sym × DF) → PyValue
deriving Repr

/-- The caller-visible return of `run_workflow`: `None` on success, the
exception otherwise. -/
def run_workflow_return (regI : IndRegistry) (regX : CrossRegistry) (regE : EvalRegistry)
    (conf : WorkflowConf) (rows : List ORow) (begin fin : Option Time)
    (concurrency : Int) (sched : Sched) : Except RunErr PyValue :=
  match run_workflow regI regX regE conf rows begin fin concurrency sched with
  | .error e => .error e
  | .ok _ => .ok PyValue.none

/-- Whether a caller received a lazily-iterable stream of pairs. -/
def isStreaming : Except RunErr PyValue → Bool
  | .ok (.pairs _) => true
  | _ => false

/-- The iteration the CLI performs over the value `run_workflow` returned
(cli_tool.py line 75: `for symbol, df in run_workflow(...)`).  Iterating
`None` raises TypeError. -/
def cliIterate : PyValue → Except RunErr (List (Sym × DF))
  | .pairs l => .ok l
  | .none => .error (.typeError "NoneType object is not iterable")

/-- The body of the CLI `run` command (cli_tool.py lines 73-81) after the
configuration is loaded: call `run_workflow`, then iterate the returned value
writing one CSV per produced (symbol, frame) pair. -/
def cliRun (regI : IndRegistry) (regX : CrossRegistry) (regE : EvalRegistry)
    (conf : WorkflowConf) (rows : List ORow) (begin fin : Option Time)
    (concurrency : Int) (sched : Sched) : Except RunErr (List (Sym × DF)) :=
  match run_workflow_return regI regX regE conf rows begin fin concurrency sched with
  | .error e => .error e
  | .ok v => cliIterate v

/-- The indicator units whose compute function runs when `_calculate`
processes `steps`: the list comprehension of run.py lines 27-34 resolves and
submits step by step, so every unit up to (excluding) the first unresolvable
name is submitted; submitted tasks are never cancelled and the pool executes
them (at the latest while the `with` block shuts the executor down), also when
a later lookup raises. -/
def submittedIndicators (reg : IndRegistry) (steps : List IndicatorConf) : List String :=
  (steps.takeWhile (fun ti => (reg.lookup ti.name).isSome)).map (fun ti => ti.name)

/-- The cross units whose compute function runs when `_cross` processes the
given work items (run.py lines 49-58), by the same submission argument. -/
def submittedCrosses (regX : CrossRegistry) (ps : List (CrossConf × Int)) : List String :=
  (ps.takeWhile (fun p => (regX.lookup p.1.name).isSome)).map (fun p => p.1.name)

/-- The registered units whose compute function executes while one symbol is
processed: all submitted indicator units; then, when the indicator stage
completed and a non-empty cross list is configured, all submitted cross
units. -/
def executedSymbol (reg : IndRegistry) (regX : CrossRegistry) (conf : WorkflowConf)
    (dfsym : DF) : List String :=
  submittedIndicators reg conf.factor.indicators ++
    match indStage reg dfsym conf.factor.indicators, conf.factor.crosses with
    | .ok _, some crs =>
      if crs.isEmpty then [] else submittedCrosses regX (crossPairs crs)
    | _, _ => []

/-- The registered units whose compute function executes during the symbol
loop of run.py lines 184-196: symbols are processed sequentially and an
exception stops the loop, so units of later symbols run only when every
earlier symbol's pipeline succeeded. -/
def executedRunGo (reg : IndRegistry) (regX : CrossRegistry) (conf : WorkflowConf)
    (frows : List ORow) : List Sym → List String
  | [] => []
  | s :: ss =>
    executedSymbol reg regX conf (symbolSlice frows s) ++
      (if exceptOk (calcSymbolSeq reg regX conf (symbolSlice frows s)) then
        executedRunGo reg regX conf frows ss
      else [])

/-- The registered units whose compute function executes during the
calculation stage of a run over the filtered rows. -/
def executedRun (reg : IndRegistry) (regX : CrossRegistry) (conf : WorkflowConf)
    (frows : List ORow) : List String :=
  executedRunGo reg regX conf frows (uniqueFirst (frows.map (fun r => r.sym)))

/-- A physically valid completion order for one symbol's pools: every pool
finishes each of its submitted tasks exactly once. -/
def ValidSymbolSched (conf : WorkflowConf) (sched : Sched) (s : Sym) : Prop :=
  (sched.calcOrder s).Perm (List.range conf.factor.indicators.length) ∧
    (sched.crossOrder s).Perm (List.range (confCrossPairs conf).length)

/-- A physically valid schedule: valid for every symbol. -/
def ValidSched (conf : WorkflowConf) (sched : Sched) : Prop :=
  ∀ s : Sym, ValidSymbolSched conf sched s

/-- The successful values of a task list (in order). -/
def okValues : List (Except RunErr DF) → List DF
  | [] => []
  | .ok d :: ts => d :: okValues ts
  | .error _ :: ts => okValues ts

/-- The columns a task contributed (empty for a failed task). -/
def stepCols (t : Except RunErr DF) : List (String × List V) :=
  match t with
  | .ok d => d.cols
  | .error _ => []

/-- The column names a task contributed. -/
def stepColNames (t : Except RunErr DF) : List String :=
  (stepCols t).map (fun c => c.1)

/-- The indicator-stage frame when every step succeeds: the stage input's
index carrying every step's columns in declaration order (proved equal to
`indStage`'s result below). -/
def indFrame (reg : IndRegistry) (dfsym : DF) (steps : List IndicatorConf) : DF :=
  ⟨dfsym.index, steps.foldr (fun ti acc => stepCols (indTask reg dfsym ti) ++ acc) []⟩

/-- The retention predicate the specification words state for the time-range
filter: `begin <= time` (when begin is given) and `time < end` (when end is
given), on the given (untruncated) bounds.  Stated from the spec, to be
compared with `filterTime` taken from the source. -/
def specRetained (begin fin : Option Time) (t : Time) : Bool :=
  (match begin with | none => true | some b => b ≤ t) &&
    (match fin with | none => true | some e => t < e)

/-- The retention predicate the source actually applies: both bounds
truncated to whole seconds. -/
def codeRetained (begin fin : Option Time) (t : Time) : Bool :=
  (match begin with | none => true | some b => truncSec b ≤ t) &&
    (match fin with | none => true | some e => t < truncSec e)

/-- A probe indicator for concrete runs: one column named `c1`, one row per
input row (value 0). -/
def probeInd : TechnicalIndicator where
  name := "I1"
  definition := ""
  func := fun df _ => ⟨[("c1", df.index.map (fun _ => 0))]⟩

/-- A second probe indicator: two columns `d1`, `d2`, one row per input row. -/
def probeInd2 : TechnicalIndicator where
  name := "I2"
  definition := ""
  func := fun df _ => ⟨[("d1", df.index.map (fun _ => 1)), ("d2", df.index.map (fun _ => 2))]⟩

/-- A probe cross: one column `ord` recording, in every row, the order value
the wrapper passed to the compute function. -/
def probeCross : CrossUnit where
  name := "X1"
  definition := ""
  func := fun df o _ => ⟨[("ord", df.index.map (fun _ => o))]⟩

/-- A probe evaluator: the identity on the block it receives. -/
def probeEval : EvaluatorUnit where
  name := "E1"
  definition := ""
  func := fun df _ => df

/-- A concrete indicator registry for witnesses. -/
def regW : IndRegistry := [("I1", probeInd), ("I2", probeInd2)]

/-- A concrete cross registry for witnesses. -/
def regXW : CrossRegistry := [("X1", probeCross)]

/-- A concrete evaluator registry for witnesses. -/
def regEW : EvalRegistry := [("E1", probeEval)]

/-- Concrete loaded OHLCV rows: two symbols, two rows each. -/
def rowsW : List ORow :=
  [⟨"A", 1000, 1, 2, 3, 4, 5⟩, ⟨"A", 2000, 1, 2, 3, 4, 5⟩,
   ⟨"B", 1000, 6, 7, 8, 9, 10⟩, ⟨"B", 2000, 6, 7, 8, 9, 10⟩]

/-- A concrete workflow configuration: two indicator steps, one cross step
with two declared orders. -/
def confW : WorkflowConf where
  name := "w"
  data := { loader := { name := "csv" }, writer := { name := "csv" } }
  factor :=
    { indicators := [{ name := "I1" }, { name := "I2" }]
      crosses := some [{ name := "X1", orders := [2, 3] }] }

/-- A concrete configuration referencing an unregistered cross name. -/
def confBogusCross : WorkflowConf where
  name := "w"
  data := { loader := { name := "csv" }, writer := { name := "csv" } }
  factor :=
    { indicators := [{ name := "I1" }]
      crosses := some [{ name := "BOGUS", orders := [2] }] }

/-- A concrete configuration with no indicator steps. -/
def confNoInd : WorkflowConf where
  name := "w"
  data := { loader := { name := "csv" }, writer := { name := "csv" } }
  factor := { indicators := [], crosses := none }

/-- A schedule finishing every pool in submission order. -/
def schedId : Sched where
  calcOrder := fun _ => [0, 1]
  crossOrder := fun _ => [0, 1]
  evalOrder := fun _ => [0]

/-- A schedule finishing every one-task pool. -/
def schedOne : Sched where
  calcOrder := fun _ => [0]
  crossOrder := fun _ => [0]
  evalOrder := fun _ => [0]

/-- A schedule finishing the two-task pools in reverse order, as a pool with
several workers may. -/
def schedRev : Sched where
  calcOrder := fun _ => [1, 0]
  crossOrder := fun _ => [1, 0]
  evalOrder := fun _ => [0]

/-- A concrete one-column frame (the cross-stage input with `k = 1`). -/
def dfOneCol : DF := ⟨[5], [("a", [1])]⟩

/-- A concrete three-column frame. -/
def dfThreeCol : DF := ⟨[5], [("a", [1]), ("b", [2]), ("c", [3])]⟩

/-- A single concrete row at time 1000 (a whole second). -/
def rA1000 : ORow := ⟨"A", 1000, 1, 2, 3, 4, 5⟩

/-- A single concrete row at time 2000 (a whole second). -/
def rA2000 : ORow := ⟨"A", 2000, 1, 2, 3, 4, 5⟩

/-- The claim hypothesis for an indicator step: the step resolves and its raw
output has one row per input row (so the wrapper's re-index assignment is
accepted). -/
def indRawAligned (reg : IndRegistry) (dfsym : DF) (ti : IndicatorConf) : Bool :=
  match resolveInd reg ti with
  | .ok u =>
    (u.func dfsym (defaultPeriods ti.args)).cols.all
      (fun c => c.2.length == dfsym.index.length)
  | .error _ => false

/-- The claim hypothesis for a cross work item: the item resolves and its raw
output (at the clamped order) has one row per input row. -/
def crossRawAligned (regX : CrossRegistry) (rdf : DF) (p : CrossConf × Int) : Bool :=
  match resolveCross regX p.1 with
  | .ok u =>
    (u.func rdf (crossEffectiveOrder p.2 rdf.cols.length) p.1.args).cols.all
      (fun c => c.2.length == rdf.index.length)
  | .error _ => false

-- Decidable equality of embedded results, for concrete evaluation.
deriving instance DecidableEq for Except

/-! ## Helper lemmas -/

theorem lookup_completionLog {α : Type} (tasks : List α) (comp : List Nat) (i : Nat)
    (hmem : i ∈ comp) (hlt : i < tasks.length) :
    (completionLog tasks comp).lookup i = tasks.get? i := by
  induction comp with
  | nil => cases hmem
  | cons j rest ih =>
    simp only [completionLog, List.filterMap_cons]
    cases hj : tasks.get? j with
    | none =>
      have hij : i ≠ j := by
        intro h
        subst h
        rw [List.get?_eq_none] at hj
        omega
      rcases List.mem_cons.mp hmem with h | h
      · exact absurd h hij
      · exact ih h
    | some r =>
      simp only [Option.map_some']
      by_cases hij : i = j
      · subst hij
        simp only [List.lookup, beq_self_eq_true]
        exact hj.symm
      · have hrest : i ∈ rest := by
          rcases List.mem_cons.mp hmem with h | h
          · exact absurd h hij
          · exact h
        have hbeq : (i == j) = false := by
          simp [beq_iff_eq]
          omega
        simp only [List.lookup, hbeq]
        exact ih hrest

theorem lookupAll_lookup {α : Type} (log : List (Nat × α)) (full : List α)
    (h : ∀ i, i < full.length → log.lookup i = full.get? i) :
    ∀ (suffix : List α) (k : Nat), full.drop k = suffix →
      lookupAll log (List.range' k suffix.length) = some suffix := by
  intro suffix
  induction suffix with
  | nil => intro k _; rfl
  | cons a rest ih =>
    intro k hk
    have hklt : k < full.length := by
      have hlen := congrArg List.length hk
      rw [List.length_drop] at hlen
      simp only [List.length_cons] at hlen
      omega
    have hget : full.get? k = some a := by
      have h0 : (full.drop k).get? 0 = some a := by rw [hk]; rfl
      rw [List.get?_drop] at h0
      simpa using h0
    have hdrop : full.drop (k + 1) = rest := by
      have h1 : full.drop (k + 1) = (full.drop k).drop 1 := by
        rw [List.drop_drop]
      rw [h1, hk]
      rfl
    simp only [List.length_cons, List.range'_succ, lookupAll]
    rw [h k hklt, hget, ih (k + 1) hdrop]

theorem runPool_perm {α : Type} (tasks : List α) (comp : List Nat)
    (hp : comp.Perm (List.range tasks.length)) :
    runPool tasks comp = some tasks := by
  have hlook : ∀ i, i < tasks.length →
      (completionLog tasks comp).lookup i = tasks.get? i := by
    intro i hi
    exact lookup_completionLog tasks comp i
      (hp.mem_iff.mpr (List.mem_range.mpr hi)) hi
  unfold runPool
  rw [List.range_eq_range']
  exact lookupAll_lookup _ tasks hlook tasks 0 rfl

theorem seqE_all_ok (ts : List (Except RunErr DF)) (h : ∀ t ∈ ts, exceptOk t = true) :
    seqE ts = .ok (okValues ts) := by
  induction ts with
  | nil => rfl
  | cons t rest ih =>
    have ht := h t (List.mem_cons_self t rest)
    cases t with
    | error e => simp [exceptOk] at ht
    | ok d =>
      have hrest := ih (fun x hx => h x (List.mem_cons_of_mem _ hx))
      simp [seqE, okValues, hrest]

theorem okValues_mem (ts : List (Except RunErr DF)) (d : DF) (hd : d ∈ okValues ts) :
    Except.ok d ∈ ts := by
  induction ts with
  | nil => cases hd
  | cons t rest ih =>
    cases t with
    | error e => exact List.mem_cons_of_mem _ (ih hd)
    | ok x =>
      rcases List.mem_cons.mp hd with h | h
      · subst h; exact List.mem_cons_self _ _
      · exact List.mem_cons_of_mem _ (ih h)

theorem okValues_length (ts : List (Except RunErr DF)) (h : ∀ t ∈ ts, exceptOk t = true) :
    (okValues ts).length = ts.length := by
  induction ts with
  | nil => rfl
  | cons t rest ih =>
    have ht := h t (List.mem_cons_self t rest)
    cases t with
    | error e => simp [exceptOk] at ht
    | ok d =>
      simp [okValues, ih (fun x hx => h x (List.mem_cons_of_mem _ hx))]

theorem okValues_foldr_cols (ts : List (Except RunErr DF)) (h : ∀ t ∈ ts, exceptOk t = true) :
    (okValues ts).foldr (fun x acc => x.cols ++ acc) [] =
      ts.foldr (fun t acc => stepCols t ++ acc) [] := by
  induction ts with
  | nil => rfl
  | cons t rest ih =>
    have ht := h t (List.mem_cons_self t rest)
    cases t with
    | error e => simp [exceptOk] at ht
    | ok d =>
      simp [okValues, stepCols, ih (fun x hx => h x (List.mem_cons_of_mem _ hx))]

theorem calcTaskResults_eq (reg : IndRegistry) (dfsym : DF) (steps : List IndicatorConf)
    (h : ∀ ti ∈ steps, exceptOk (resolveInd reg ti) = true) :
    calcTaskResults reg dfsym steps = .ok (steps.map (indTask reg dfsym)) := by
  induction steps with
  | nil => rfl
  | cons ti rest ih =>
    have hti := h ti (List.mem_cons_self ti rest)
    cases hres : resolveInd reg ti with
    | error e => rw [hres] at hti; simp [exceptOk] at hti
    | ok u =>
      have hrest := ih (fun x hx => h x (List.mem_cons_of_mem _ hx))
      have htask : indTask reg dfsym ti = indicatorWrapper u.func dfsym ti.args := by
        unfold indTask
        rw [hres]
      simp only [calcTaskResults, hres, hrest, List.map_cons, htask]

theorem calcTaskResults_length (reg : IndRegistry) (dfsym : DF)
    (steps : List IndicatorConf) (ts : List (Except RunErr DF))
    (h : calcTaskResults reg dfsym steps = .ok ts) : ts.length = steps.length := by
  induction steps generalizing ts with
  | nil =>
    simp only [calcTaskResults] at h
    injection h with h
    subst h
    rfl
  | cons ti rest ih =>
    simp only [calcTaskResults] at h
    cases hres : resolveInd reg ti with
    | error e => rw [hres] at h; cases h
    | ok u =>
      rw [hres] at h
      cases hcc : calcTaskResults reg dfsym rest with
      | error e => rw [hcc] at h; cases h
      | ok ts0 =>
        rw [hcc] at h
        injection h with h
        subst h
        simp [ih ts0 hcc]

theorem calcTaskResults_lookup (reg : IndRegistry) (dfsym : DF)
    (steps : List IndicatorConf) (ts : List (Except RunErr DF))
    (h : calcTaskResults reg dfsym steps = .ok ts) :
    submittedIndicators reg steps = steps.map (fun ti => ti.name) := by
  induction steps generalizing ts with
  | nil => rfl
  | cons ti rest ih =>
    simp only [calcTaskResults] at h
    cases hres : resolveInd reg ti with
    | error e => rw [hres] at h; cases h
    | ok u =>
      rw [hres] at h
      cases hcc : calcTaskResults reg dfsym rest with
      | error e => rw [hcc] at h; cases h
      | ok ts0 =>
        have hsome : (reg.lookup ti.name).isSome = true := by
          unfold resolveInd at hres
          cases hl : reg.lookup ti.name with
          | none => rw [hl] at hres; cases hres
          | some u0 => rfl
        simp only [submittedIndicators, List.takeWhile, hsome, List.map_cons]
        have := ih ts0 hcc
        simp only [submittedIndicators] at this
        rw [this]

theorem pyCalculate_eq_indStage (reg : IndRegistry) (dfsym : DF)
    (steps : List IndicatorConf) (comp : List Nat)
    (hp : comp.Perm (List.range steps.length)) :
    pyCalculate reg dfsym steps comp = indStage reg dfsym steps := by
  cases hct : calcTaskResults reg dfsym steps with
  | error e => simp [pyCalculate, indStage, hct]
  | ok ts =>
    have hlen : ts.length = steps.length := calcTaskResults_length _ _ _ _ hct
    have hrp : runPool ts comp = some ts := by
      apply runPool_perm
      rw [hlen]
      exact hp
    simp [pyCalculate, indStage, hct, hrp]

theorem attachTimeIndex_ok (idx : List Time) (r : RawDF) (d : DF)
    (h : attachTimeIndex idx r = .ok d) : d.index = idx ∧ d.cols = r.cols := by
  unfold attachTimeIndex at h
  by_cases h1 : r.cols.isEmpty
  · rw [if_pos h1] at h
    injection h with h
    subst h
    refine ⟨rfl, ?_⟩
    rw [List.isEmpty_iff] at h1
    exact h1.symm
  · rw [if_neg h1] at h
    by_cases h2 : r.cols.all (fun c => c.2.length == idx.length)
    · rw [if_pos h2] at h
      injection h with h
      subst h
      exact ⟨rfl, rfl⟩
    · rw [if_neg h2] at h
      cases h

theorem indTask_ok_shape (reg : IndRegistry) (dfsym : DF) (ti : IndicatorConf) (d : DF)
    (h : indTask reg dfsym ti = .ok d) : d.index = dfsym.index := by
  unfold indTask at h
  cases hres : resolveInd reg ti with
  | error e => rw [hres] at h; cases h
  | ok u =>
    rw [hres] at h
    exact (attachTimeIndex_ok _ _ _ h).1

theorem indTask_ok_resolve (reg : IndRegistry) (dfsym : DF) (ti : IndicatorConf)
    (h : exceptOk (indTask reg dfsym ti) = true) :
    exceptOk (resolveInd reg ti) = true := by
  unfold indTask at h
  cases hres : resolveInd reg ti with
  | error e => rw [hres] at h; simp [exceptOk] at h
  | ok u => rfl

theorem concatCols_same_index (i : List Time) (dfs : List DF)
    (hne : dfs ≠ []) (hall : ∀ d ∈ dfs, d.index = i) :
    concatCols dfs = .ok ⟨i, dfs.foldr (fun x acc => x.cols ++ acc) []⟩ := by
  cases dfs with
  | nil => exact absurd rfl hne
  | cons d rest =>
    have hd : d.index = i := hall d (List.mem_cons_self _ _)
    have hrest : rest.all (fun x => x.index == i) = true := by
      rw [List.all_eq_true]
      intro x hx
      have hx2 := hall x (List.mem_cons_of_mem _ hx)
      rw [beq_iff_eq, hx2]
    simp [concatCols, hd, hrest]

theorem indStage_eq (reg : IndRegistry) (dfsym : DF) (steps : List IndicatorConf)
    (hne : steps ≠ [])
    (h : ∀ ti ∈ steps, exceptOk (indTask reg dfsym ti) = true) :
    indStage reg dfsym steps = .ok (indFrame reg dfsym steps) := by
  have hres : ∀ ti ∈ steps, exceptOk (resolveInd reg ti) = true :=
    fun ti hti => indTask_ok_resolve reg dfsym ti (h ti hti)
  have hct := calcTaskResults_eq reg dfsym steps hres
  have hmem : ∀ t ∈ steps.map (indTask reg dfsym), exceptOk t = true := by
    intro t ht
    rcases List.mem_map.mp ht with ⟨ti, hti, rfl⟩
    exact h ti hti
  have hseq := seqE_all_ok _ hmem
  have hidx : ∀ d ∈ okValues (steps.map (indTask reg dfsym)), d.index = dfsym.index := by
    intro d hd
    have hok := okValues_mem _ _ hd
    rcases List.mem_map.mp hok with ⟨ti, hti, hEq⟩
    exact indTask_ok_shape reg dfsym ti d hEq
  have hlen : (okValues (steps.map (indTask reg dfsym))).length =
      (steps.map (indTask reg dfsym)).length := okValues_length _ hmem
  have hnil : okValues (steps.map (indTask reg dfsym)) ≠ [] := by
    intro hc
    rw [hc] at hlen
    cases steps with
    | nil => exact hne rfl
    | cons a l => simp at hlen
  have hcc := concatCols_same_index dfsym.index _ hnil hidx
  have hfold := okValues_foldr_cols _ hmem
  simp only [indStage, hct, hseq, hcc, hfold, List.foldr_map]
  rfl

theorem crossTask_ok_shape (regX : CrossRegistry) (rdf : DF) (p : CrossConf × Int) (d : DF)
    (h : crossTask regX rdf p = .ok d) : d.index = rdf.index := by
  unfold crossTask at h
  cases hres : resolveCross regX p.1 with
  | error e => rw [hres] at h; cases h
  | ok u =>
    rw [hres] at h
    exact (attachTimeIndex_ok _ _ _ h).1

theorem crossTask_ok_resolve (regX : CrossRegistry) (rdf : DF) (p : CrossConf × Int)
    (h : exceptOk (crossTask regX rdf p) = true) :
    exceptOk (resolveCross regX p.1) = true := by
  unfold crossTask at h
  cases hres : resolveCross regX p.1 with
  | error e => rw [hres] at h; simp [exceptOk] at h
  | ok u => rfl

theorem crossTaskResults_eq (regX : CrossRegistry) (rdf : DF) (ps : List (CrossConf × Int))
    (h : ∀ p ∈ ps, exceptOk (resolveCross regX p.1) = true) :
    crossTaskResults regX rdf ps = .ok (ps.map (crossTask regX rdf)) := by
  induction ps with
  | nil => rfl
  | cons p rest ih =>
    have hp := h p (List.mem_cons_self p rest)
    cases hres : resolveCross regX p.1 with
    | error e => rw [hres] at hp; simp [exceptOk] at hp
    | ok u =>
      have hrest := ih (fun x hx => h x (List.mem_cons_of_mem _ hx))
      have htask : crossTask regX rdf p = crossWrapper u.func rdf p.2 p.1.args := by
        unfold crossTask
        rw [hres]
      simp only [crossTaskResults, hres, hrest, List.map_cons, htask]

theorem crossTaskResults_length (regX : CrossRegistry) (rdf : DF)
    (ps : List (CrossConf × Int)) (ts : List (Except RunErr DF))
    (h : crossTaskResults regX rdf ps = .ok ts) : ts.length = ps.length := by
  induction ps generalizing ts with
  | nil =>
    simp only [crossTaskResults] at h
    injection h with h
    subst h
    rfl
  | cons p rest ih =>
    simp only [crossTaskResults] at h
    cases hres : resolveCross regX p.1 with
    | error e => rw [hres] at h; cases h
    | ok u =>
      rw [hres] at h
      cases hcc : crossTaskResults regX rdf rest with
      | error e => rw [hcc] at h; cases h
      | ok ts0 =>
        rw [hcc] at h
        injection h with h
        subst h
        simp [ih ts0 hcc]

theorem crossTaskResults_lookup (regX : CrossRegistry) (rdf : DF)
    (ps : List (CrossConf × Int)) (ts : List (Except RunErr DF))
    (h : crossTaskResults regX rdf ps = .ok ts) :
    submittedCrosses regX ps = ps.map (fun p => p.1.name) := by
  induction ps generalizing ts with
  | nil => rfl
  | cons p rest ih =>
    simp only [crossTaskResults] at h
    cases hres : resolveCross regX p.1 with
    | error e => rw [hres] at h; cases h
    | ok u =>
      rw [hres] at h
      cases hcc : crossTaskResults regX rdf rest with
      | error e => rw [hcc] at h; cases h
      | ok ts0 =>
        have hsome : (regX.lookup p.1.name).isSome = true := by
          unfold resolveCross at hres
          cases hl : regX.lookup p.1.name with
          | none => rw [hl] at hres; cases hres
          | some u0 => rfl
        simp only [submittedCrosses, List.takeWhile, hsome, List.map_cons]
        have := ih ts0 hcc
        simp only [submittedCrosses] at this
        rw [this]

theorem pyCross_eq_crossStage (regX : CrossRegistry) (rdf : DF)
    (crs : List CrossConf) (comp : List Nat)
    (hp : comp.Perm (List.range (crossPairs crs).length)) :
    pyCross regX rdf crs comp = crossStage regX rdf crs := by
  cases hct : crossTaskResults regX rdf (crossPairs crs) with
  | error e => simp [pyCross, crossStage, hct]
  | ok ts =>
    have hlen : ts.length = (crossPairs crs).length := crossTaskResults_length _ _ _ _ hct
    have hrp : runPool ts comp = some ts := by
      apply runPool_perm
      rw [hlen]
      exact hp
    simp [pyCross, crossStage, hct, hrp]

theorem crossStage_eq (regX : CrossRegistry) (rdf : DF) (crs : List CrossConf)
    (hne : crossPairs crs ≠ [])
    (h : ∀ p ∈ crossPairs crs, exceptOk (crossTask regX rdf p) = true) :
    crossStage regX rdf crs =
      .ok ⟨rdf.index,
        (crossPairs crs).foldr (fun p acc => stepCols (crossTask regX rdf p) ++ acc) []⟩ := by
  have hres : ∀ p ∈ crossPairs crs, exceptOk (resolveCross regX p.1) = true :=
    fun p hp => crossTask_ok_resolve regX rdf p (h p hp)
  have hct := crossTaskResults_eq regX rdf (crossPairs crs) hres
  have hmem : ∀ t ∈ (crossPairs crs).map (crossTask regX rdf), exceptOk t = true := by
    intro t ht
    rcases List.mem_map.mp ht with ⟨p, hp, rfl⟩
    exact h p hp
  have hseq := seqE_all_ok _ hmem
  have hidx : ∀ d ∈ okValues ((crossPairs crs).map (crossTask regX rdf)),
      d.index = rdf.index := by
    intro d hd
    have hok := okValues_mem _ _ hd
    rcases List.mem_map.mp hok with ⟨p, hp, hEq⟩
    exact crossTask_ok_shape regX rdf p d hEq
  have hlen : (okValues ((crossPairs crs).map (crossTask regX rdf))).length =
      ((crossPairs crs).map (crossTask regX rdf)).length := okValues_length _ hmem
  have hnil : okValues ((crossPairs crs).map (crossTask regX rdf)) ≠ [] := by
    intro hc
    rw [hc] at hlen
    cases hpc : crossPairs crs with
    | nil => exact hne hpc
    | cons a l => rw [hpc] at hlen; simp at hlen
  have hcc := concatCols_same_index rdf.index _ hnil hidx
  have hfold := okValues_foldr_cols _ hmem
  simp only [crossStage, hct, hseq, hcc, hfold, List.foldr_map]

theorem calcSymbol_eq_seq (reg : IndRegistry) (regX : CrossRegistry) (conf : WorkflowConf)
    (dfsym : DF) (sched : Sched) (s : Sym) (h : ValidSymbolSched conf sched s) :
    calcSymbol reg regX conf dfsym sched s = calcSymbolSeq reg regX conf dfsym := by
  obtain ⟨h1, h2⟩ := h
  unfold calcSymbol calcSymbolSeq
  rw [pyCalculate_eq_indStage _ _ _ _ h1]
  cases indStage reg dfsym conf.factor.indicators with
  | error e => rfl
  | ok rdf =>
    cases hcr : conf.factor.crosses with
    | none => rfl
    | some crs =>
      by_cases hemp : crs.isEmpty
      · simp [hemp]
      · have hp : (sched.crossOrder s).Perm (List.range (crossPairs crs).length) := by
          have : confCrossPairs conf = crossPairs crs := by
            unfold confCrossPairs
            rw [hcr]
            rfl
          rw [← this]
          exact h2
        simp only [hemp, if_false, Bool.false_eq_true]
        rw [pyCross_eq_crossStage _ _ _ _ hp]

theorem calcTableGo_eq_seq (reg : IndRegistry) (regX : CrossRegistry) (conf : WorkflowConf)
    (frows : List ORow) (sched : Sched) (h : ValidSched conf sched) (syms : List Sym) :
    calcTableGo reg regX conf frows sched syms = calcTableGoSeq reg regX conf frows syms := by
  induction syms with
  | nil => rfl
  | cons s ss ih =>
    unfold calcTableGo calcTableGoSeq
    rw [calcSymbol_eq_seq reg regX conf _ sched s (h s), ih]

theorem calcTable_eq_seq (reg : IndRegistry) (regX : CrossRegistry) (conf : WorkflowConf)
    (frows : List ORow) (sched : Sched) (h : ValidSched conf sched) :
    calcTable reg regX conf frows sched =
      calcTableGoSeq reg regX conf frows (uniqueFirst (frows.map (fun r => r.sym))) := by
  unfold calcTable
  exact calcTableGo_eq_seq reg regX conf frows sched h _

theorem evalTaskResults_length (regE : EvalRegistry) (dfe : DF)
    (ecfgs : List IndicatorConf) (ts : List DF)
    (h : evalTaskResults regE dfe ecfgs = .ok ts) : ts.length = ecfgs.length := by
  induction ecfgs generalizing ts with
  | nil =>
    simp only [evalTaskResults] at h
    injection h with h
    subst h
    rfl
  | cons e rest ih =>
    simp only [evalTaskResults] at h
    cases hres : resolveEval regE e with
    | error er => rw [hres] at h; cases h
    | ok u =>
      rw [hres] at h
      cases hcc : evalTaskResults regE dfe rest with
      | error er => rw [hcc] at h; cases h
      | ok ts0 =>
        rw [hcc] at h
        injection h with h
        subst h
        simp [ih ts0 hcc]

theorem pyEvaluate_sched_indep (regE : EvalRegistry) (ct : CalcTable) (s : Sym)
    (ecfgs : List IndicatorConf) (c1 c2 : List Nat)
    (h1 : c1.Perm (List.range ecfgs.length)) (h2 : c2.Perm (List.range ecfgs.length)) :
    pyEvaluate regE ct s ecfgs c1 = pyEvaluate regE ct s ecfgs c2 := by
  cases hls : lookupSymbolFrame ct s with
  | none => simp [pyEvaluate, hls]
  | some f =>
    cases het : evalTaskResults regE (resetIndex f) ecfgs with
    | error e => simp [pyEvaluate, hls, het]
    | ok ts =>
      have hlen : ts.length = ecfgs.length := evalTaskResults_length _ _ _ _ het
      have hr1 : runPool ts c1 = some ts := by
        apply runPool_perm
        rw [hlen]
        exact h1
      have hr2 : runPool ts c2 = some ts := by
        apply runPool_perm
        rw [hlen]
        exact h2
      simp [pyEvaluate, hls, het, hr1, hr2]

theorem run_workflow_eq_seq (regI : IndRegistry) (regX : CrossRegistry) (regE : EvalRegistry)
    (conf : WorkflowConf) (rows : List ORow) (b e : Option Time) (c1 c2 : Int)
    (sched1 sched2 : Sched) (h1 : ValidSched conf sched1) (h2 : ValidSched conf sched2) :
    run_workflow regI regX regE conf rows b e c1 sched1 =
      run_workflow regI regX regE conf rows b e c2 sched2 := by
  simp only [run_workflow]
  rw [calcTable_eq_seq _ _ _ _ _ h1, ← calcTable_eq_seq regI regX conf _ sched2 h2]
  cases calcTable regI regX conf (filterTime b e rows) sched2 with
  | error er => rfl
  | ok ct => rfl

/-! ## Claim theorems -/

theorem filterTime_eq_filter (b e : Option Time) (rows : List ORow) :
    filterTime b e rows = rows.filter (fun r => codeRetained b e r.time) := by
  cases b with
  | none =>
    cases e with
    | none => simp [filterTime, codeRetained]
    | some ev => simp [filterTime, codeRetained]
  | some bv =>
    cases e with
    | none => simp [filterTime, codeRetained]
    | some ev =>
      simp only [filterTime, codeRetained]
      rw [List.filter_filter]
      apply List.filter_congr
      intro r _
      rw [Bool.and_comm]

theorem indRawAligned_ok (reg : IndRegistry) (dfsym : DF) (ti : IndicatorConf)
    (h : indRawAligned reg dfsym ti = true) :
    exceptOk (indTask reg dfsym ti) = true := by
  unfold indRawAligned at h
  cases hres : resolveInd reg ti with
  | error e => rw [hres] at h; cases h
  | ok u =>
    rw [hres] at h
    dsimp only at h
    unfold indTask indicatorWrapper attachTimeIndex
    rw [hres]
    dsimp only
    by_cases h1 : (u.func dfsym (defaultPeriods ti.args)).cols.isEmpty
    · rw [if_pos h1]; rfl
    · rw [if_neg h1, if_pos h]; rfl

theorem crossRawAligned_ok (regX : CrossRegistry) (rdf : DF) (p : CrossConf × Int)
    (h : crossRawAligned regX rdf p = true) :
    exceptOk (crossTask regX rdf p) = true := by
  unfold crossRawAligned at h
  cases hres : resolveCross regX p.1 with
  | error e => rw [hres] at h; cases h
  | ok u =>
    rw [hres] at h
    dsimp only at h
    unfold crossTask crossWrapper attachTimeIndex
    rw [hres]
    dsimp only
    by_cases h1 : (u.func rdf (crossEffectiveOrder p.2 rdf.cols.length) p.1.args).cols.isEmpty
    · rw [if_pos h1]; rfl
    · rw [if_neg h1, if_pos h]; rfl

/-- Claim C3 (counterexample): over a one-column input frame with declared
order 3, the order actually passed to the compute function (recorded by the
probe) is 1, while the specification formula `max(2, min(o, k))` gives 2; the
two disagree. -/
theorem claim_c3_counterexample :
    crossWrapper probeCross.func dfOneCol 3 [] =
      .ok ⟨[5], [("ord", [1])]⟩ ∧
    crossEffectiveOrder 3 dfOneCol.cols.length = 1 ∧
    specOrderFormula 3 dfOneCol.cols.length = 2 ∧
    decide (crossEffectiveOrder 3 dfOneCol.cols.length =
      specOrderFormula 3 dfOneCol.cols.length) = false := by
  refine ⟨rfl, rfl, rfl, rfl⟩

/-- Claim C3 (amended): the wrapper passes the clamped order
`min(max(o, 2), k)` to the compute function, and whenever the input frame has
at least 2 columns this clamp coincides with the claimed formula
`max(2, min(o, k))`; for fewer than 2 columns the code yields `k`, not 2. -/
theorem claim_c3_amended (raw : DF → Int → Args → RawDF) (input : DF) (o : Int)
    (kw : Args) (h : 2 ≤ input.cols.length) :
    crossWrapper raw input o kw =
      attachTimeIndex input.index
        (raw input (crossEffectiveOrder o input.cols.length) kw) ∧
    crossEffectiveOrder o input.cols.length = specOrderFormula o input.cols.length := by
  refine ⟨rfl, ?_⟩
  unfold crossEffectiveOrder specOrderFormula
  have h2 : (2 : Int) ≤ (input.cols.length : Int) := by exact_mod_cast h
  omega

/-- Claim C3 (witness): the amended statement at a concrete three-column
frame and declared order 7. -/
theorem claim_c3_amended_witness :
    crossWrapper probeCross.func dfThreeCol 7 [] =
      attachTimeIndex dfThreeCol.index
        (probeCross.func dfThreeCol (crossEffectiveOrder 7 dfThreeCol.cols.length) []) ∧
    crossEffectiveOrder 7 dfThreeCol.cols.length =
      specOrderFormula 7 dfThreeCol.cols.length :=
  claim_c3_amended probeCross.func dfThreeCol 7 [] (by decide)

/-- Claim C4: the configuration model cannot declare evaluator steps
(`FactorConf` has only `indicators` and `crosses`), and every run of
`run_workflow` raises AttributeError when line 215 reads
`conf.factor.evaluators` — here evaluated on a concrete configuration with no
evaluators, which the claim says should finish with an empty evaluation
table. -/
theorem claim_c4_evaluators_attribute_error :
    run_workflow regW regXW regEW confW rowsW none none 1 schedId =
      .error (.attributeError "evaluators") ∧
    (∀ fc : FactorConf, factorEvaluatorsAttr fc = .error (.attributeError "evaluators")) := by
  exact ⟨by decide, fun _ => rfl⟩

/-- Claim C5: the CLI iteration over the value returned by `run_workflow`
fails on a concrete run (the run raises AttributeError before even returning;
had it returned, the value would be None, not an iterable of pairs), and no
call of `run_workflow` whatsoever hands its caller a stream of
(symbol, frame) pairs. -/
theorem claim_c5_no_streaming :
    cliRun regW regXW regEW confW rowsW none none 1 schedId =
      .error (.attributeError "evaluators") ∧
    (∀ (regI : IndRegistry) (regX : CrossRegistry) (regE : EvalRegistry)
        (conf : WorkflowConf) (rows : List ORow) (b e : Option Time)
        (c : Int) (sched : Sched),
      isStreaming (run_workflow_return regI regX regE conf rows b e c sched) = false) := by
  constructor
  · decide
  · intro regI regX regE conf rows b e c sched
    unfold run_workflow_return isStreaming
    cases run_workflow regI regX regE conf rows b e c sched with
    | error er => rfl
    | ok v => rfl

/-- Claim C6 (counterexample): with a begin bound of 1500 ms (0.5 s after the
whole second 1000 ms), the row at time 1000 is retained by the code although
`begin <= time` fails for it, so the filter does not retain exactly the rows
the claim describes. -/
theorem claim_c6_counterexample :
    filterTime (some 1500) none [rA1000] = [rA1000] ∧
    specRetained (some 1500) none rA1000.time = false := by
  exact ⟨rfl, rfl⟩

/-- Claim C6 (amended): the filter retains exactly the rows whose time
satisfies the bounds truncated to whole seconds (begin-inclusive,
end-exclusive, absent bounds unconstrained), it never reorders the surviving
rows, and it acts once, directly after load: a run over the raw rows equals a
run over the pre-filtered rows with no bounds. -/
theorem claim_c6_amended (b e : Option Time) (rows : List ORow) :
    filterTime b e rows = rows.filter (fun r => codeRetained b e r.time) ∧
    (filterTime b e rows).Sublist rows ∧
    (∀ (regI : IndRegistry) (regX : CrossRegistry) (regE : EvalRegistry)
        (conf : WorkflowConf) (c : Int) (sched : Sched),
      run_workflow regI regX regE conf rows b e c sched =
        run_workflow regI regX regE conf (filterTime b e rows) none none c sched) := by
  refine ⟨filterTime_eq_filter b e rows, ?_, ?_⟩
  · rw [filterTime_eq_filter b e rows]
    exact List.filter_sublist rows
  · intro regI regX regE conf c sched
    rfl

/-- Claim C9: the effective bounds of the time-range filter are the given
timestamps truncated to whole seconds; concretely, a begin bound of 1500 ms
retains the row at 1000 ms (which precedes the given begin), and an end bound
of 2500 ms excludes the row at 2000 ms (which precedes the given end). -/
theorem claim_c9_truncated_bounds :
    (∀ (b e : Time) (rows : List ORow),
      filterTime (some b) (some e) rows =
        rows.filter (fun r => codeRetained (some b) (some e) r.time)) ∧
    (filterTime (some 1500) none [rA1000] = [rA1000] ∧
      rA1000.time < 1500 ∧ truncSec 1500 ≤ rA1000.time) ∧
    (filterTime none (some 2500) [rA2000] = [] ∧
      rA2000.time < 2500 ∧ truncSec 2500 ≤ rA2000.time) := by
  refine ⟨fun b e rows => filterTime_eq_filter (some b) (some e) rows, ?_, ?_⟩
  · exact ⟨rfl, by decide, by decide⟩
  · exact ⟨rfl, by decide, by decide⟩

/-- Claim C10: with an empty (or omitted, which defaults to empty) indicator
step list, `_calculate` builds no tasks and fails with pandas' ValueError
from `pd.concat` over an empty list, for every symbol slice and every
schedule, instead of returning an empty frame. -/
theorem claim_c10_empty_indicators (reg : IndRegistry) (regX : CrossRegistry)
    (conf : WorkflowConf) (dfsym : DF) (sched : Sched) (s : Sym)
    (h : conf.factor.indicators = []) :
    calcTaskResults reg dfsym conf.factor.indicators = .ok [] ∧
    pyCalculate reg dfsym conf.factor.indicators (sched.calcOrder s) =
      .error .noObjectsToConcatenate ∧
    calcSymbol reg regX conf dfsym sched s = .error .noObjectsToConcatenate := by
  have hrp : runPool ([] : List (Except RunErr DF)) (sched.calcOrder s) = some [] := by
    unfold runPool completionLog
    have hlog : (sched.calcOrder s).filterMap
        (fun i => (([] : List (Except RunErr DF)).get? i).map (fun r => (i, r))) = [] := by
      rw [List.filterMap_eq_nil]
      intro a _
      rfl
    rw [hlog]
    rfl
  have hcalc : pyCalculate reg dfsym conf.factor.indicators (sched.calcOrder s) =
      .error .noObjectsToConcatenate := by
    rw [h]
    simp only [pyCalculate, calcTaskResults, hrp]
    rfl
  refine ⟨by rw [h]; rfl, hcalc, ?_⟩
  unfold calcSymbol
  rw [hcalc]

/-- Claim C10 (witness): the statement at a concrete configuration whose
indicator list is empty. -/
theorem claim_c10_empty_indicators_witness :
    calcTaskResults regW (symbolSlice rowsW "A") confNoInd.factor.indicators = .ok [] ∧
    pyCalculate regW (symbolSlice rowsW "A") confNoInd.factor.indicators
      (schedId.calcOrder "A") = .error .noObjectsToConcatenate ∧
    calcSymbol regW regXW confNoInd (symbolSlice rowsW "A") schedId "A" =
      .error .noObjectsToConcatenate :=
  claim_c10_empty_indicators regW regXW confNoInd (symbolSlice rowsW "A") schedId "A" rfl

theorem map_fst_foldr_cols {α : Type} (g : α → List (String × List V)) (l : List α) :
    (l.foldr (fun x acc => g x ++ acc) []).map (fun c => c.1) =
      l.foldr (fun x acc => (g x).map (fun c : String × List V => c.1) ++ acc) [] := by
  induction l with
  | nil => rfl
  | cons a rest ih => simp only [List.foldr_cons, List.map_append, ih]

theorem calcSymbolSeq_ok (reg : IndRegistry) (regX : CrossRegistry) (conf : WorkflowConf)
    (dfsym : DF)
    (hne : conf.factor.indicators ≠ [])
    (hind : ∀ ti ∈ conf.factor.indicators, exceptOk (indTask reg dfsym ti) = true)
    (hcp : conf.factor.crosses.getD [] ≠ [] → confCrossPairs conf ≠ [])
    (hcross : ∀ p ∈ confCrossPairs conf,
      exceptOk (crossTask regX (indFrame reg dfsym conf.factor.indicators) p) = true) :
    calcSymbolSeq reg regX conf dfsym =
      .ok ⟨dfsym.index,
        (indFrame reg dfsym conf.factor.indicators).cols ++
          (confCrossPairs conf).foldr
            (fun p acc =>
              stepCols (crossTask regX (indFrame reg dfsym conf.factor.indicators) p) ++ acc)
            []⟩ := by
  have hstage := indStage_eq reg dfsym conf.factor.indicators hne hind
  unfold calcSymbolSeq
  rw [hstage]
  cases hcr : conf.factor.crosses with
  | none =>
    have hpairs : confCrossPairs conf = [] := by
      unfold confCrossPairs
      rw [hcr]
      rfl
    rw [hpairs]
    simp only [List.foldr_nil, List.append_nil]
    rfl
  | some crs =>
    by_cases hemp : crs.isEmpty
    · have hcrs0 : crs = [] := List.isEmpty_iff.mp hemp
      have hpairs : confCrossPairs conf = [] := by
        unfold confCrossPairs
        rw [hcr, hcrs0]
        rfl
      rw [hpairs]
      simp only [hemp, if_true, List.foldr_nil, List.append_nil]
      rfl
    · have hpairs : confCrossPairs conf = crossPairs crs := by
        unfold confCrossPairs
        rw [hcr]
        rfl
      have hcrne : crs ≠ [] := by
        intro hc
        rw [hc] at hemp
        exact hemp rfl
      have hgd : conf.factor.crosses.getD [] ≠ [] := by
        rw [hcr]
        exact hcrne
      have hpne : crossPairs crs ≠ [] := by
        rw [← hpairs]
        exact hcp hgd
      have hcross2 : ∀ p ∈ crossPairs crs,
          exceptOk (crossTask regX (indFrame reg dfsym conf.factor.indicators) p) = true := by
        intro p hp
        apply hcross
        rw [hpairs]
        exact hp
      have hcs := crossStage_eq regX (indFrame reg dfsym conf.factor.indicators) crs hpne hcross2
      simp only [hemp, Bool.false_eq_true, if_false, hcs]
      have hall : ∀ d ∈ [indFrame reg dfsym conf.factor.indicators,
          (⟨(indFrame reg dfsym conf.factor.indicators).index,
            (crossPairs crs).foldr
              (fun p acc =>
                stepCols (crossTask regX (indFrame reg dfsym conf.factor.indicators) p) ++ acc)
              []⟩ : DF)], d.index = dfsym.index := by
        intro d hd
        rcases List.mem_cons.mp hd with h | h
        · rw [h]; rfl
        · rcases List.mem_cons.mp h with h2 | h2
          · rw [h2]; rfl
          · cases h2
      have hca := concatCols_same_index dfsym.index _ (by simp) hall
      rw [hca, hpairs]
      simp only [List.foldr_cons, List.foldr_nil, List.append_nil]

/-- Claim C1: within each stage the dispatcher collects task results in
submission order whatever the completion order, so, for every valid schedule,
a symbol's calculation frame carries first the indicator steps' columns in
declaration order and then the cross columns, ordered by cross-step
declaration and, within a step, by the declared order values. -/
theorem claim_c1_column_order (reg : IndRegistry) (regX : CrossRegistry)
    (conf : WorkflowConf) (dfsym : DF) (sched : Sched) (s : Sym)
    (hsched : ValidSymbolSched conf sched s)
    (hne : conf.factor.indicators ≠ [])
    (hind : ∀ ti ∈ conf.factor.indicators, exceptOk (indTask reg dfsym ti) = true)
    (hcp : conf.factor.crosses.getD [] ≠ [] → confCrossPairs conf ≠ [])
    (hcross : ∀ p ∈ confCrossPairs conf,
      exceptOk (crossTask regX (indFrame reg dfsym conf.factor.indicators) p) = true) :
    ∃ f, calcSymbol reg regX conf dfsym sched s = .ok f ∧
      f.cols.map (fun c => c.1) =
        conf.factor.indicators.foldr
          (fun ti acc => stepColNames (indTask reg dfsym ti) ++ acc) [] ++
        (confCrossPairs conf).foldr
          (fun p acc =>
            stepColNames (crossTask regX (indFrame reg dfsym conf.factor.indicators) p) ++ acc)
          [] := by
  rw [calcSymbol_eq_seq reg regX conf dfsym sched s hsched]
  rw [calcSymbolSeq_ok reg regX conf dfsym hne hind hcp hcross]
  refine ⟨_, rfl, ?_⟩
  show ((indFrame reg dfsym conf.factor.indicators).cols ++ _).map (fun c => c.1) = _
  rw [List.map_append]
  congr 1
  · show ((indFrame reg dfsym conf.factor.indicators).cols).map (fun c => c.1) = _
    unfold indFrame
    exact map_fst_foldr_cols (fun ti => stepCols (indTask reg dfsym ti)) conf.factor.indicators
  · exact map_fst_foldr_cols
      (fun p => stepCols (crossTask regX (indFrame reg dfsym conf.factor.indicators) p))
      (confCrossPairs conf)

/-- Claim C1 (witness): a concrete two-indicator, one-cross-with-two-orders
run whose pool finishes the tasks in reverse submission order; the columns
come out in declaration order nonetheless. -/
theorem claim_c1_column_order_witness :
    ∃ f, calcSymbol regW regXW confW (symbolSlice rowsW "A") schedRev "A" = .ok f ∧
      f.cols.map (fun c => c.1) =
        confW.factor.indicators.foldr
          (fun ti acc => stepColNames (indTask regW (symbolSlice rowsW "A") ti) ++ acc) [] ++
        (confCrossPairs confW).foldr
          (fun p acc =>
            stepColNames
              (crossTask regXW (indFrame regW (symbolSlice rowsW "A") confW.factor.indicators) p)
              ++ acc)
          [] :=
  claim_c1_column_order regW regXW confW (symbolSlice rowsW "A") schedRev "A"
    ⟨by decide, by decide⟩ (by decide) (by decide) (by decide) (by decide)

/-- Claim C8: the indicator and cross wrappers re-index every successful raw
result with the stage input's index, and hence, whenever every raw step
output has one row per input row, a symbol's calculation frame is indexed by
exactly that symbol's filtered time values and its row count equals the
symbol's filtered row count. -/
theorem claim_c8_row_alignment (reg : IndRegistry) (regX : CrossRegistry)
    (conf : WorkflowConf) (rows : List ORow) (b e : Option Time) (sched : Sched) (s : Sym)
    (hsched : ValidSymbolSched conf sched s)
    (hne : conf.factor.indicators ≠ [])
    (hind : ∀ ti ∈ conf.factor.indicators,
      indRawAligned reg (symbolSlice (filterTime b e rows) s) ti = true)
    (hcp : conf.factor.crosses.getD [] ≠ [] → confCrossPairs conf ≠ [])
    (hcross : ∀ p ∈ confCrossPairs conf,
      crossRawAligned regX
        (indFrame reg (symbolSlice (filterTime b e rows) s) conf.factor.indicators) p = true) :
    (∀ (raw : DF → Args → RawDF) (input : DF) (kw : Args) (d : DF),
      indicatorWrapper raw input kw = .ok d → d.index = input.index) ∧
    (∀ (raw : DF → Int → Args → RawDF) (input : DF) (o : Int) (kw : Args) (d : DF),
      crossWrapper raw input o kw = .ok d → d.index = input.index) ∧
    ∃ f, calcSymbol reg regX conf (symbolSlice (filterTime b e rows) s) sched s = .ok f ∧
      f.index = ((filterTime b e rows).filter (fun r => r.sym == s)).map (fun r => r.time) ∧
      f.index.length = ((filterTime b e rows).filter (fun r => r.sym == s)).length := by
  refine ⟨?_, ?_, ?_⟩
  · intro raw input kw d hd
    exact (attachTimeIndex_ok _ _ _ hd).1
  · intro raw input o kw d hd
    exact (attachTimeIndex_ok _ _ _ hd).1
  · rw [calcSymbol_eq_seq reg regX conf _ sched s hsched]
    rw [calcSymbolSeq_ok reg regX conf _ hne
        (fun ti hti => indRawAligned_ok reg _ ti (hind ti hti)) hcp
        (fun p hp => crossRawAligned_ok regX _ p (hcross p hp))]
    refine ⟨_, rfl, rfl, ?_⟩
    show (symbolSlice (filterTime b e rows) s).index.length = _
    simp [symbolSlice]

/-- Claim C8 (witness): the statement at the concrete fixtures. -/
theorem claim_c8_row_alignment_witness :
    (∀ (raw : DF → Args → RawDF) (input : DF) (kw : Args) (d : DF),
      indicatorWrapper raw input kw = .ok d → d.index = input.index) ∧
    (∀ (raw : DF → Int → Args → RawDF) (input : DF) (o : Int) (kw : Args) (d : DF),
      crossWrapper raw input o kw = .ok d → d.index = input.index) ∧
    ∃ f, calcSymbol regW regXW confW (symbolSlice (filterTime (some 500) (some 2500) rowsW) "A")
        schedId "A" = .ok f ∧
      f.index = ((filterTime (some 500) (some 2500) rowsW).filter
        (fun r => r.sym == "A")).map (fun r => r.time) ∧
      f.index.length = ((filterTime (some 500) (some 2500) rowsW).filter
        (fun r => r.sym == "A")).length :=
  claim_c8_row_alignment regW regXW confW rowsW (some 500) (some 2500) schedId "A"
    ⟨by decide, by decide⟩ (by decide) (by decide) (by decide) (by decide)

/-- Claim C2 (counterexample): a configuration whose cross step names the
unregistered `BOGUS` unit.  The run fails with the dict lookup's KeyError (no
`UnitNotFoundError`/`ConfigResolutionError` exists in the code), and the
registered indicator `I1` has already executed when the failure surfaces —
the data was loaded, filtered and the whole indicator stage ran first, so the
failure is mid-pipeline, not before computation begins. -/
theorem claim_c2_counterexample :
    calcTable regW regXW confBogusCross rowsW schedId = .error (.keyError "BOGUS") ∧
    executedRun regW regXW confBogusCross rowsW = ["I1"] := by
  exact ⟨by decide, by decide⟩

/-- Claim C2 (amended): a workflow referencing an unregistered unit name does
not fail before computation begins; it fails with the registry dict's
KeyError at task-submission time inside the stage that references the name.
For an unregistered cross name this happens only after the first symbol's
complete indicator stage has executed: the calculation stage returns that
KeyError while the executed-unit trace contains every declared indicator
unit. -/
theorem claim_c2_amended (reg : IndRegistry) (regX : CrossRegistry) (conf : WorkflowConf)
    (frows : List ORow) (sched : Sched) (s : Sym) (ss : List Sym) (rdf : DF) (nm : String)
    (hsyms : uniqueFirst (frows.map (fun r => r.sym)) = s :: ss)
    (hsched : ValidSymbolSched conf sched s)
    (hind : indStage reg (symbolSlice frows s) conf.factor.indicators = .ok rdf)
    (hcrs : conf.factor.crosses.getD [] ≠ [])
    (hbad : crossTaskResults regX rdf (crossPairs (conf.factor.crosses.getD [])) =
      .error (.keyError nm)) :
    calcTable reg regX conf frows sched = .error (.keyError nm) ∧
    executedRun reg regX conf frows =
      conf.factor.indicators.map (fun ti => ti.name) ++
        submittedCrosses regX (crossPairs (conf.factor.crosses.getD [])) := by
  cases hcr : conf.factor.crosses with
  | none =>
    rw [hcr] at hcrs
    exact absurd rfl hcrs
  | some crs =>
    have hgd : conf.factor.crosses.getD [] = crs := by rw [hcr]; rfl
    have hcrne : crs ≠ [] := by
      rw [hgd] at hcrs
      exact hcrs
    have hemp : crs.isEmpty = false := by
      cases crs with
      | nil => exact absurd rfl hcrne
      | cons a l => rfl
    rw [hgd] at hbad
    have hcseq : calcSymbolSeq reg regX conf (symbolSlice frows s) =
        .error (.keyError nm) := by
      unfold calcSymbolSeq
      simp only [hind, hcr, hemp, Bool.false_eq_true, if_false]
      unfold crossStage
      simp only [hbad]
    have hts : ∃ ts, calcTaskResults reg (symbolSlice frows s) conf.factor.indicators =
        .ok ts := by
      unfold indStage at hind
      cases hct : calcTaskResults reg (symbolSlice frows s) conf.factor.indicators with
      | error e => rw [hct] at hind; cases hind
      | ok ts => exact ⟨ts, rfl⟩
    obtain ⟨ts, hct⟩ := hts
    have hsubInd := calcTaskResults_lookup reg (symbolSlice frows s)
      conf.factor.indicators ts hct
    constructor
    · unfold calcTable
      rw [hsyms]
      unfold calcTableGo
      rw [calcSymbol_eq_seq reg regX conf _ sched s hsched]
      simp only [hcseq]
    · unfold executedRun
      rw [hsyms]
      unfold executedRunGo
      simp only [hcseq, exceptOk, Bool.false_eq_true, if_false, List.append_nil]
      unfold executedSymbol
      simp only [hind, hcr, hemp, Bool.false_eq_true, if_false, hsubInd, hgd]
      rfl

/-- Claim C2 (amended, witness): the amended statement at the concrete
`BOGUS`-cross configuration. -/
theorem claim_c2_amended_witness :
    calcTable regW regXW confBogusCross rowsW schedOne = .error (.keyError "BOGUS") ∧
    executedRun regW regXW confBogusCross rowsW =
      confBogusCross.factor.indicators.map (fun ti => ti.name) ++
        submittedCrosses regXW (crossPairs (confBogusCross.factor.crosses.getD [])) :=
  claim_c2_amended regW regXW confBogusCross rowsW schedOne "A" ["B"]
    ⟨[1000, 2000], [("c1", [0, 0])]⟩ "BOGUS"
    (by decide)
    ⟨(by decide :
        ([0] : List Nat).Perm (List.range confBogusCross.factor.indicators.length)),
      (by decide :
        ([0] : List Nat).Perm (List.range (confCrossPairs confBogusCross).length))⟩
    (by decide) (by decide) (by decide)

/-- Claim C7: with the same configuration and input, a run with
`concurrency = 1` and a run with `concurrency = 4` produce identical results
whatever completion orders their pools realise: the whole-run outcomes agree,
the calculation tables agree, and the evaluation stage computation is
schedule-independent as well. -/
theorem claim_c7_concurrency_independent (regI : IndRegistry) (regX : CrossRegistry)
    (regE : EvalRegistry) (conf : WorkflowConf) (rows : List ORow) (b e : Option Time)
    (sched1 sched2 : Sched) (h1 : ValidSched conf sched1) (h2 : ValidSched conf sched2) :
    run_workflow regI regX regE conf rows b e 1 sched1 =
      run_workflow regI regX regE conf rows b e 4 sched2 ∧
    calcTable regI regX conf (filterTime b e rows) sched1 =
      calcTable regI regX conf (filterTime b e rows) sched2 ∧
    (∀ (ct : CalcTable) (s : Sym) (ecfgs : List IndicatorConf) (c1 c2 : List Nat),
      c1.Perm (List.range ecfgs.length) → c2.Perm (List.range ecfgs.length) →
      pyEvaluate regE ct s ecfgs c1 = pyEvaluate regE ct s ecfgs c2) := by
  refine ⟨run_workflow_eq_seq regI regX regE conf rows b e 1 4 sched1 sched2 h1 h2, ?_, ?_⟩
  · rw [calcTable_eq_seq regI regX conf _ sched1 h1, calcTable_eq_seq regI regX conf _ sched2 h2]
  · intro ct s ecfgs c1 c2 hc1 hc2
    exact pyEvaluate_sched_indep regE ct s ecfgs c1 c2 hc1 hc2

/-- Claim C7 (witness): the statement at the concrete fixtures, with the two
runs scheduled in opposite completion orders. -/
theorem claim_c7_concurrency_independent_witness :
    run_workflow regW regXW regEW confW rowsW none none 1 schedId =
      run_workflow regW regXW regEW confW rowsW none none 4 schedRev ∧
    calcTable regW regXW confW (filterTime none none rowsW) schedId =
      calcTable regW regXW confW (filterTime none none rowsW) schedRev ∧
    (∀ (ct : CalcTable) (s : Sym) (ecfgs : List IndicatorConf) (c1 c2 : List Nat),
      c1.Perm (List.range ecfgs.length) → c2.Perm (List.range ecfgs.length) →
      pyEvaluate regEW ct s ecfgs c1 = pyEvaluate regEW ct s ecfgs c2) :=
  claim_c7_concurrency_independent regW regXW regEW confW rowsW none none schedId schedRev
    (fun _ =>
      ⟨(by decide : ([0, 1] : List Nat).Perm (List.range confW.factor.indicators.length)),
        (by decide : ([0, 1] : List Nat).Perm (List.range (confCrossPairs confW).length))⟩)
    (fun _ =>
      ⟨(by decide : ([1, 0] : List Nat).Perm (List.range confW.factor.indicators.length)),
        (by decide : ([1, 0] : List Nat).Perm (List.range (confCrossPairs confW).length))⟩)

end QuantFactorizer
